import Mathlib

/-!
Verification of the Redis backplane engine (`lib/engine/engineredis/engine.go`).

The Go source is shallowly embedded: each relevant Go function or Lua server
side script becomes a Lean function over explicit state.  Go byte slices and
strings are modelled as `String` (or `List Char` where character level
operations matter), Go `int` as `Int`, Redis lists as `List String` (a Redis
list key exists iff the list is nonempty), Redis hashes and sorted sets as
association lists.  Buffered Go channels are modelled as lists of the values
they currently hold.
-/

namespace EngineRedis

/-! ### Redis primitives used by the engine -/

/-- Redis `LPUSH key v`: prepend `v`.  Creates the list when absent
(an absent list is the empty list). -/
def lpush (v : String) (l : List String) : List String := v :: l

/-- Redis `LPUSHX key v`: prepend `v` only when the list already exists
(is nonempty); return value 0 (empty result stays empty) otherwise. -/
def lpushx (v : String) (l : List String) : List String :=
  if l.isEmpty then l else v :: l

/-- Redis `LRANGE key 0 stop` (also the set of indices `LTRIM key 0 stop`
keeps): indices `0 .. stop` inclusive, a negative `stop` counting from the
end of the list (`-1` is the last element). -/
def lrange0 {α : Type} (stop : Int) (l : List α) : List α :=
  if stop < 0 then
    if (l.length : Int) + stop < 0 then []
    else l.take (((l.length : Int) + stop).toNat + 1)
  else l.take (stop.toNat + 1)

/-- Association-list write used to model Redis `HSET` / `ZADD` / `SETEX`:
replace the value of every pair with key `k` when one exists, otherwise
append the new pair. -/
def upsert {β : Type} (k : String) (v : β) (l : List (String × β)) :
    List (String × β) :=
  if l.any (fun p => p.1 = k) then
    l.map (fun p => if p.1 = k then (k, v) else p)
  else l ++ [(k, v)]

/-! ### The publish-with-history script (`pubScriptSource`, engine.go 311-324)

```
local n = redis.call("publish", ARGV[1], ARGV[2])
local m = 0
if ARGV[5] == "1" and n == 0 and redis.call("exists", KEYS[2]) == 0 then
  m = redis.call("lpushx", KEYS[1], ARGV[2])
else
  m = redis.call("lpush", KEYS[1], ARGV[2])
end
if m > 0 then
  redis.call("ltrim", KEYS[1], 0, ARGV[3])
  redis.call("expire", KEYS[1], ARGV[4])
end
return n
```
`receivers` stands for the value returned by `PUBLISH` (number of backplane
subscribers that received the message), `touchExists` for
`EXISTS KEYS[2] == 1`.  `m` in the Lua code is the length of the resulting
list (`LPUSHX` returns 0 exactly when it did nothing on an absent key, in
which case the list is still empty). -/

structure PubResult where
  /-- channel the payload was published to (`ARGV[1]`) -/
  channel : String
  /-- payload delivered to pub/sub (`ARGV[2]`); publish happens unconditionally -/
  payload : String
  /-- value of `n`, returned by the script -/
  receivers : Nat
  /-- history list after the script -/
  history : List String
  /-- TTL on the history list key after the script (`none` = untouched input TTL) -/
  histTtl : Option Int
deriving Repr, DecidableEq

def pubScript (channel payload : String) (historySize historyLifetime : Int)
    (dropInactive : Bool) (receivers : Nat) (touchExists : Bool)
    (history : List String) (histTtl : Option Int) : PubResult :=
  let m := if dropInactive ∧ receivers = 0 ∧ touchExists = false
           then lpushx payload history
           else lpush payload history
  if 0 < m.length then
    { channel := channel, payload := payload, receivers := receivers,
      history := lrange0 historySize m, histTtl := some historyLifetime }
  else
    { channel := channel, payload := payload, receivers := receivers,
      history := m, histTtl := histTtl }

/-- Effect of one history-publish on the history list alone.  One publish
input is `(payload, receivers, touchExists)`. -/
def pubStep (channel : String) (historySize historyLifetime : Int)
    (dropInactive : Bool) (h : List String) (p : String × Nat × Bool) :
    List String :=
  (pubScript channel p.1 historySize historyLifetime dropInactive
    p.2.1 p.2.2 h none).history

/-- History list after a sequence of publishes through the publish script
(every `Shard.Publish` on a channel configured with `HistorySize > 0` and
`HistoryLifetime > 0` goes through the script, engine.go 815-816). -/
def pubSeq (channel : String) (historySize historyLifetime : Int)
    (dropInactive : Bool) (pubs : List (String × Nat × Bool))
    (h : List String) : List String :=
  pubs.foldl (pubStep channel historySize historyLifetime dropInactive) h

/-! ### `Shard.History` (engine.go 1186-1201) -/

/-- Source `rangeBound` computed by `Shard.History`: `-1` unless `limit > 0`,
in which case `limit - 1` ("Redis includes last index into result"). -/
def historyRangeBound (limit : Int) : Int :=
  if 0 < limit then limit - 1 else -1

/-- Source `Shard.History` issues `LRANGE historyKey 0 rangeBound` against the
channel's history list (newest first, since the script uses `LPUSH`). -/
def shardHistory (hist : List String) (limit : Int) : List String :=
  lrange0 (historyRangeBound limit) hist

/-! ### Key schema (engine.go 51-58, 387, 398-424) -/

/-- Source `RedisControlChannelSuffix`. -/
def redisControlChannelSuffix : String := ".control"

/-- Source `RedisPingChannelSuffix`. -/
def redisPingChannelSuffix : String := ".ping"

/-- Source `RedisClientChannelPrefix` (the segment between the configured key
prefix and the logical channel name). -/
def redisClientChannelSeg : String := ".client."

/-- Source `Shard.messageChannelID`: `messagePrefix + ch` where
`messagePrefix = conf.Prefix + RedisClientChannelPrefix`. -/
def messageChannelID (confPre ch : String) : String :=
  confPre ++ redisClientChannelSeg ++ ch

/-- Source `Shard.controlChannelID`. -/
def controlChannelID (confPre : String) : String :=
  confPre ++ redisControlChannelSuffix

/-- Source `Shard.pingChannelID`. -/
def pingChannelID (confPre : String) : String :=
  confPre ++ redisPingChannelSuffix

/-- Source `Shard.getHistoryKey`. -/
def getHistoryKey (confPre ch : String) : String :=
  confPre ++ ".history.list." ++ ch

/-- Source `Shard.getHistoryTouchKey`. -/
def getHistoryTouchKey (confPre ch : String) : String :=
  confPre ++ ".history.touch." ++ ch

/-- Source `Shard.getPresenceHashKey`. -/
def getPresenceHashKey (confPre ch : String) : String :=
  confPre ++ ".presence.data." ++ ch

/-- Source `Shard.getPresenceSetKey`. -/
def getPresenceSetKey (confPre ch : String) : String :=
  confPre ++ ".presence.expire." ++ ch

/-- Source `channel.Options` — the fields the engine reads. -/
structure ChannelOptions where
  HistorySize : Int
  HistoryLifetime : Int
  HistoryDropInactive : Bool
deriving Repr, DecidableEq

/-! ### Presence (engine.go 332-359, 1147-1184)

Per-channel presence state: the sorted set `P + ".presence.expire." + c`
(member uid ↦ score = absolute expiry) and the hash
`P + ".presence.data." + c` (uid ↦ serialised client info).  A Redis
hash/sorted-set key exists iff it has at least one member. -/

structure PresenceState where
  pset : List (String × Int)
  phash : List (String × String)
deriving Repr, DecidableEq

/-- Source `addPresenceSource` script:
```
redis.call("zadd", KEYS[1], ARGV[2], ARGV[3])
redis.call("hset", KEYS[2], ARGV[3], ARGV[4])
redis.call("expire", KEYS[1], ARGV[1])
redis.call("expire", KEYS[2], ARGV[1])
```
Redis `EXPIRE key s` with `s ≤ 0` deletes the key outright, so a
non-positive `keyExpire` empties both structures; a positive TTL is not
modelled further because no claim lets wall-clock time pass. -/
def addPresenceScript (keyExpire expireAt : Int) (uid info : String)
    (st : PresenceState) : PresenceState :=
  let st1 : PresenceState :=
    { pset := upsert uid expireAt st.pset, phash := upsert uid info st.phash }
  if keyExpire ≤ 0 then { pset := [], phash := [] } else st1

/-- Source `Shard.AddPresence` (engine.go 1147-1160): sends the add-presence script
with `ARGV[1] = expire` and `ARGV[2] = expireAt = time.Now().Unix() + expire`. -/
def shardAddPresence (now expire : Int) (uid info : String)
    (st : PresenceState) : PresenceState :=
  addPresenceScript expire (now + expire) uid info st

/-- Source `presenceSource` script:
```
local expired = redis.call("zrangebyscore", KEYS[1], "0", ARGV[1])
if #expired > 0 then
  for num = 1, #expired do
    redis.call("hdel", KEYS[2], expired[num])
  end
  redis.call("zremrangebyscore", KEYS[1], "0", ARGV[1])
end
return redis.call("hgetall", KEYS[2])
```
`ARGV[1]` is `now`; `ZRANGEBYSCORE 0 now` is inclusive at both ends.
Returns the post-sweep state and the hash contents handed back to
`Shard.Presence`. -/
def presenceScript (now : Int) (st : PresenceState) :
    PresenceState × List (String × String) :=
  let expired := st.pset.filter (fun p => decide (0 ≤ p.2 ∧ p.2 ≤ now))
  if expired.isEmpty then (st, st.phash)
  else
    let phash1 := st.phash.filter
      (fun q => ! expired.any (fun p => p.1 == q.1))
    let pset1 := st.pset.filter
      (fun p => ! decide (0 ≤ p.2 ∧ p.2 ≤ now))
    ({ pset := pset1, phash := phash1 }, phash1)

/-- Source `Shard.Presence` (engine.go 1172-1184): runs the presence script with
`ARGV[1] = int(time.Now().Unix())` and returns the hash as a uid ↦ info map. -/
def shardPresence (now : Int) (st : PresenceState) :
    PresenceState × List (String × String) :=
  presenceScript now st

/-! ### Request envelopes (engine.go 124-158, 748-763, 856-899)

A buffered Go channel is modelled as the list of values it currently
holds; an optional reply channel is `Option` of that. -/

/-- Source `subRequest` (engine.go 124-129).  `err = none` models a nil reply
channel (fire-and-forget). -/
structure SubRequestM where
  channels : List String
  subscribe : Bool
  err : Option (List (Option String))
deriving Repr, DecidableEq

/-- Source `newSubRequest` (engine.go 134-143): allocates a reply channel
(buffer 1, here an empty list) only when `wantResponse`. -/
def newSubRequest (chs : List String) (sub : Bool) (wantResponse : Bool) :
    SubRequestM :=
  { channels := chs, subscribe := sub,
    err := if wantResponse then some [] else none }

/-- Source `subRequest.done` (engine.go 145-150): a nil reply channel discards the
error, otherwise the error is sent into the buffer. -/
def subRequestDone (r : SubRequestM) (e : Option String) : SubRequestM :=
  match r.err with
  | none => r
  | some buf => { r with err := some (buf ++ [e]) }

/-- Source `subRequest.result` (engine.go 152-158).  `some v`: returns `v` at once;
`none`: blocks on the reply channel (buffer still empty). -/
def subRequestResult (r : SubRequestM) : Option (Option String) :=
  match r.err with
  | none => some none
  | some [] => none
  | some (e :: _) => some e

/-- Source `dataOp` (engine.go 858-865). -/
inductive DataOpM where
  | addPresence
  | removePresence
  | presence
  | history
  | channels
  | historyTouch
deriving Repr, DecidableEq

/-- Argument of a data request (`args []interface{}` holds Redis keys,
strings and integers). -/
inductive RArg where
  | str (s : String)
  | int (i : Int)
deriving Repr, DecidableEq

/-- Source `dataResponse` (engine.go 867-870); both fields may be nil. -/
structure DataResponseM where
  reply : Option String
  err : Option String
deriving Repr, DecidableEq

/-- Source `dataRequest` (engine.go 872-876). -/
structure DataRequestM where
  op : DataOpM
  args : List RArg
  resp : Option (List DataResponseM)
deriving Repr, DecidableEq

/-- Source `newDataRequest` (engine.go 878-884). -/
def newDataRequest (op : DataOpM) (args : List RArg) (wantResponse : Bool) :
    DataRequestM :=
  { op := op, args := args,
    resp := if wantResponse then some [] else none }

/-- Source `dataRequest.done` (engine.go 886-891). -/
def dataRequestDone (r : DataRequestM) (reply err : Option String) :
    DataRequestM :=
  match r.resp with
  | none => r
  | some buf => { r with resp := some (buf ++ [⟨reply, err⟩]) }

/-- Source `dataRequest.result` (engine.go 893-899): with no reply channel it
returns the empty `&dataResponse{}` immediately. -/
def dataRequestResult (r : DataRequestM) : Option DataResponseM :=
  match r.resp with
  | none => some ⟨none, none⟩
  | some [] => none
  | some (x :: _) => some x

/-! ### Publish pipeline (engine.go 748-854, 1004-1117) -/

/-- Source `pubRequest` (engine.go 748-755); the reply channel is represented by
the positional reply in `BatchOutcome.replies`. -/
structure PubRequestM where
  channel : String
  message : String
  historyKey : String
  touchKey : String
  opts : Option ChannelOptions
deriving Repr, DecidableEq

/-- Outcome of one drained batch in `runPublishPipeline`:
`replies` is what each request's `done` delivered (positionally, in batch
order; `none` = nil error), `exits` whether the loop returns (so that the
supervisor restarts it). -/
structure BatchOutcome where
  replies : List (Option String)
  exits : Bool
deriving Repr, DecidableEq

/-- The flush / reply tail of `runPublishPipeline` (engine.go 821-851):
all commands for the batch were sent, then `conn.Flush()` runs with result
`flushErr`; on flush failure every request is answered with that error and
the loop exits; otherwise the per-request results `recvs` are received in
order and delivered, and the loop exits iff some reply is a
`NOSCRIPT `-prefixed Redis error. -/
def processPublishBatch (prs : List PubRequestM) (flushErr : Option String)
    (recvs : List (Option String)) : BatchOutcome :=
  match flushErr with
  | some e => { replies := prs.map (fun _ => some e), exits := true }
  | none =>
    let rs := (prs.zip recvs).map (fun pr => pr.2)
    { replies := rs,
      exits := rs.any (fun r => match r with
        | some s => s.startsWith "NOSCRIPT "
        | none => false) }

/-- Source `Shard.Publish` (engine.go 1004-1042).  `enc1` models
`MessageEncoder().EncodePublication(pub)`, `enc2` models
`MessageEncoder().Encode(NewPublicationMessage(ch, data))`.  Returns the
contents of the returned reply channel `eChan` and the publish request
channel after the call. -/
def shardPublish (confPre ch : String) (enc1 : Except String String)
    (enc2 : String → Except String String) (opts : Option ChannelOptions)
    (pubCh : List PubRequestM) : List String × List PubRequestM :=
  match enc1 with
  | .error e => ([e], pubCh)
  | .ok d =>
    match enc2 d with
    | .error e => ([e], pubCh)
    | .ok m =>
      match opts with
      | some o =>
        if 0 < o.HistorySize ∧ 0 < o.HistoryLifetime then
          ([], pubCh ++ [{ channel := messageChannelID confPre ch,
                           message := m,
                           historyKey := getHistoryKey confPre ch,
                           touchKey := getHistoryTouchKey confPre ch,
                           opts := some o }])
        else
          ([], pubCh ++ [{ channel := messageChannelID confPre ch,
                           message := m, historyKey := "", touchKey := "",
                           opts := none }])
      | none =>
        ([], pubCh ++ [{ channel := messageChannelID confPre ch,
                         message := m, historyKey := "", touchKey := "",
                         opts := none }])

/-- Source `Shard.PublishJoin` (engine.go 1044-1069): two encode steps, always a
plain publish request (channel options are ignored for the request). -/
def shardPublishJoin (confPre ch : String) (enc1 : Except String String)
    (enc2 : String → Except String String) (pubCh : List PubRequestM) :
    List String × List PubRequestM :=
  match enc1 with
  | .error e => ([e], pubCh)
  | .ok d =>
    match enc2 d with
    | .error e => ([e], pubCh)
    | .ok m =>
      ([], pubCh ++ [{ channel := messageChannelID confPre ch,
                       message := m, historyKey := "", touchKey := "",
                       opts := none }])

/-- Source `Shard.PublishLeave` (engine.go 1071-1096): same shape as
`PublishJoin`. -/
def shardPublishLeave (confPre ch : String) (enc1 : Except String String)
    (enc2 : String → Except String String) (pubCh : List PubRequestM) :
    List String × List PubRequestM :=
  match enc1 with
  | .error e => ([e], pubCh)
  | .ok d =>
    match enc2 d with
    | .error e => ([e], pubCh)
    | .ok m =>
      ([], pubCh ++ [{ channel := messageChannelID confPre ch,
                       message := m, historyKey := "", touchKey := "",
                       opts := none }])

/-- Source `Shard.PublishControl` (engine.go 1098-1117): one encode step
(`ControlEncoder().EncodeCommand`), control channel, plain request. -/
def shardPublishControl (confPre : String) (enc : Except String String)
    (pubCh : List PubRequestM) : List String × List PubRequestM :=
  match enc with
  | .error e => ([e], pubCh)
  | .ok m =>
    ([], pubCh ++ [{ channel := controlChannelID confPre, message := m,
                     historyKey := "", touchKey := "", opts := none }])

/-! ### `Shard.Subscribe` / `Shard.Unsubscribe` (engine.go 1119-1145) -/

/-- Requests a `Subscribe` / `Unsubscribe` call pushes into the shard's
channels before blocking on `result()`: the subscribe request and any data
requests. -/
structure SubEffects where
  subReqs : List SubRequestM
  dataReqs : List DataRequestM
deriving Repr, DecidableEq

/-- Source `Shard.Subscribe` (engine.go 1119-1126): one subscribe request for the
message channel, nothing else. -/
def shardSubscribe (confPre ch : String) : SubEffects :=
  { subReqs := [newSubRequest [messageChannelID confPre ch] true true],
    dataReqs := [] }

/-- Source `Shard.Unsubscribe` (engine.go 1128-1145): one unsubscribe request;
when the node's channel options exist and have `HistoryDropInactive` set,
additionally a `dataOpHistoryTouch` request
`{getHistoryTouchKey ch, HistoryLifetime, ""}` (executed as `SETEX`,
engine.go 964-965) that the call waits on. -/
def shardUnsubscribe (confPre ch : String) (chOpts : Option ChannelOptions) :
    SubEffects :=
  { subReqs := [newSubRequest [messageChannelID confPre ch] false true],
    dataReqs :=
      match chOpts with
      | some o =>
        if o.HistoryDropInactive then
          [newDataRequest .historyTouch
            [.str (getHistoryTouchKey confPre ch), .int o.HistoryLifetime,
             .str ""] true]
        else []
      | none => [] }

/-- String-keyed store of `SETEX` keys: key ↦ (TTL, value).  A key is
present iff it was set. -/
def setex (key : String) (ttl : Int) (v : String)
    (st : List (String × Int × String)) : List (String × Int × String) :=
  upsert key (ttl, v) st

/-- Data-pipeline execution of the requests the claims exercise: a
`dataOpHistoryTouch` request runs `SETEX key ttl value`
(engine.go 964-965); other operations do not write touch keys. -/
def applyDataRequest (st : List (String × Int × String)) (r : DataRequestM) :
    List (String × Int × String) :=
  match r.op, r.args with
  | .historyTouch, [.str k, .int ttl, .str v] => setex k ttl v st
  | _, _ => st

/-- Touch-key store after the data pipeline served a list of requests. -/
def applyDataRequests (st : List (String × Int × String))
    (reqs : List DataRequestM) : List (String × Int × String) :=
  reqs.foldl applyDataRequest st

/-! ### `Shard.Channels` / `RedisEngine.Channels` (engine.go 504-527,
1209-1232)

Channel names are handled at character level here because
`Shard.Channels` slices the store-level name
(`string(chID)[len(e.messagePrefix):]`). -/

/-- Source `messagePrefix` of a shard: configured prefix + `".client."`
(engine.go 387). -/
def messagePreL (confPre : List Char) : List Char :=
  confPre ++ ".client.".toList

/-- Source `Shard.Channels`: every store-level name returned by
`PUBSUB CHANNELS messagePrefix*` with the leading `messagePrefix`
characters sliced off. -/
def shardChannels (confPre : List Char) (store : List (List Char)) :
    List (List Char) :=
  store.map (fun s => s.drop (messagePreL confPre).length)

/-- Insertion into the `channelMap` set: Go's
`channelMap[ch] = struct{}{}` keeps one copy per name. -/
def insertDistinct (acc : List (List Char)) (x : List Char) :
    List (List Char) :=
  if x ∈ acc then acc else acc ++ [x]

/-- Source `RedisEngine.Channels` over the per-shard (already stripped) lists.
`sharding` is `len(shards) > 1` (engine.go 294): with no shard the loop
body never runs; with one shard the `!e.sharding` branch returns the first
shard's list directly; otherwise every shard's list goes through
`channelMap` (map iteration order modelled as insertion order). -/
def engineChannels (shardLists : List (List (List Char))) :
    List (List Char) :=
  match shardLists with
  | [] => []
  | [l] => l
  | ls => ls.flatten.foldl insertDistinct []

/-- Source `RedisEngine.Channels` from per-shard `(conf.Prefix, PUBSUB result)`
pairs. -/
def engineChannelsOf (shards : List (List Char × List (List Char))) :
    List (List Char) :=
  engineChannels (shards.map (fun sh => shardChannels sh.1 sh.2))

/-! ### Pub/sub worker lane (engine.go 653-687, 739-746) -/

/-- What one worker-lane iteration did with one `redis.Message`. -/
inductive WorkerOutcome where
  /-- empty `Data`: `continue` before the channel switch -/
  | skippedEmpty
  /-- control channel, decode ok: `node.HandleControl(cmd)` -/
  | handledControl (cmd : Nat)
  /-- control channel, decode failed: log and drop -/
  | droppedControlError (e : String)
  /-- ping channel: do nothing -/
  | pingIgnored
  /-- other channel, handled: `node.HandleClientMessage` -/
  | handledClient (msg : Nat)
  /-- other channel, `handleRedisClientMessage` failed: log and drop -/
  | droppedClientError (e : String)
deriving Repr, DecidableEq

/-- One worker-lane iteration (engine.go 663-684): the payload-emptiness
check `len(n.Data) == 0` runs before the `switch chID`.  `decodeCommand`
models `ControlDecoder().DecodeCommand`, `handleClientMessage` models
`handleRedisClientMessage` (unmarshal + `HandleClientMessage`); decoded
values are abstracted to `Nat`. -/
def workerProcess (controlCh pingCh : String)
    (decodeCommand : List Nat → Except String Nat)
    (handleClientMessage : List Nat → Except String Nat)
    (msgCh : String) (data : List Nat) : WorkerOutcome :=
  if data.length = 0 then .skippedEmpty
  else if msgCh = controlCh then
    match decodeCommand data with
    | .error e => .droppedControlError e
    | .ok cmd => .handledControl cmd
  else if msgCh = pingCh then .pingIgnored
  else
    match handleClientMessage data with
    | .error e => .droppedClientError e
    | .ok m => .handledClient m

/-- True exactly when the outcome invoked the control handler or the
client-message handler. -/
def invokesHandler : WorkerOutcome → Bool
  | .handledControl _ => true
  | .handledClient _ => true
  | _ => false

/-- True exactly when the outcome carries a (logged and dropped) error. -/
def workerErrored : WorkerOutcome → Bool
  | .droppedControlError _ => true
  | .droppedClientError _ => true
  | _ => false

/-! ## Helper lemmas -/

lemma length_lrange0_le {α : Type} (stop : Int) (h : 0 ≤ stop) (l : List α) :
    (lrange0 stop l).length ≤ stop.toNat + 1 := by
  unfold lrange0
  rw [if_neg (by omega)]
  exact List.length_take_le _ _

lemma lrange0_neg_one {α : Type} (l : List α) : lrange0 (-1) l = l := by
  unfold lrange0
  rw [if_pos (by omega)]
  cases l with
  | nil => simp
  | cons a t =>
    rw [if_neg (by simp)]
    have h1 : (((a :: t).length : Int) + -1).toNat + 1 = (a :: t).length := by
      simp
    rw [h1, List.take_length]

lemma pubStep_length_le (c : String) (n l : Int) (di : Bool)
    (h : List String) (p : String × Nat × Bool) (hn : 0 ≤ n) :
    (pubStep c n l di h p).length ≤ n.toNat + 1 := by
  unfold pubStep pubScript
  dsimp only
  by_cases h0 : 0 < (if di = true ∧ p.2.1 = 0 ∧ p.2.2 = false
    then lpushx p.1 h else lpush p.1 h).length
  · rw [if_pos h0]
    exact length_lrange0_le n hn _
  · rw [if_neg h0]
    dsimp only
    omega

lemma pubSeq_length_le (c : String) (n l : Int) (di : Bool)
    (pubs : List (String × Nat × Bool)) (hn : 0 ≤ n) :
    ∀ h : List String, h.length ≤ n.toNat + 1 →
      (pubSeq c n l di pubs h).length ≤ n.toNat + 1 := by
  induction pubs with
  | nil => intro h hh; simpa [pubSeq] using hh
  | cons p ps ih =>
    intro h hh
    have hstep := pubStep_length_le c n l di h p hn
    simpa only [pubSeq, List.foldl_cons] using ih _ hstep

/-! ## Claims -/

/-- Claim C1, counterexample: with `historySize = 3` and
`historyLifetime = 60`, publishing `"1","2","3","4"` (each reaching one
subscriber, drop-inactive off) leaves a history list of length 4 — the
script's `ltrim KEYS[1] 0 ARGV[3]` keeps `historySize + 1` entries — and
`History(c, {})` returns `["4","3","2","1"]`, not `["4","3","2"]`. -/
theorem c1_history_size_counterexample :
    (pubSeq "c" 3 60 false
      [("1", 1, false), ("2", 1, false), ("3", 1, false), ("4", 1, false)]
      []).length = 4 ∧
    ¬ (pubSeq "c" 3 60 false
      [("1", 1, false), ("2", 1, false), ("3", 1, false), ("4", 1, false)]
      []).length ≤ 3 ∧
    shardHistory (pubSeq "c" 3 60 false
      [("1", 1, false), ("2", 1, false), ("3", 1, false), ("4", 1, false)]
      []) 0 = ["4", "3", "2", "1"] ∧
    shardHistory (pubSeq "c" 3 60 false
      [("1", 1, false), ("2", 1, false), ("3", 1, false), ("4", 1, false)]
      []) 0 ≠ ["4", "3", "2"] := by
  decide

/-- Claim C1, amended: for a channel configured with `historySize = N > 0`
(and `historyLifetime > 0`), after any sequence of publishes through the
publish script the history list holds at most `N + 1` entries (the script's
`ltrim` keeps indices `0 .. historySize` inclusive); `History(c, {})`
returns the whole list, and in particular with `historySize = 3` publishing
`"1","2","3","4"` makes it return `["4","3","2","1"]`. -/
theorem c1_history_bounded (c : String) (n l : Int) (di : Bool)
    (pubs : List (String × Nat × Bool)) (hn : 0 < n) :
    (pubSeq c n l di pubs []).length ≤ n.toNat + 1 ∧
    shardHistory (pubSeq c n l di pubs []) 0 = pubSeq c n l di pubs [] ∧
    shardHistory (pubSeq "c" 3 60 false
      [("1", 1, false), ("2", 1, false), ("3", 1, false), ("4", 1, false)]
      []) 0 = ["4", "3", "2", "1"] := by
  refine ⟨pubSeq_length_le c n l di pubs hn.le [] (by simp), ?_, by decide⟩
  simp [shardHistory, historyRangeBound, lrange0_neg_one]

/-- Witness for `c1_history_bounded` at `N = 3`. -/
theorem c1_history_bounded_witness :
    (0 : Int) < 3 ∧
    ((pubSeq "x" 3 60 false [("m", 0, true)] []).length ≤ (3 : Int).toNat + 1 ∧
     shardHistory (pubSeq "x" 3 60 false [("m", 0, true)] []) 0 =
       pubSeq "x" 3 60 false [("m", 0, true)] [] ∧
     shardHistory (pubSeq "c" 3 60 false
       [("1", 1, false), ("2", 1, false), ("3", 1, false), ("4", 1, false)]
       []) 0 = ["4", "3", "2", "1"]) :=
  ⟨by decide, c1_history_bounded "x" 3 60 false [("m", 0, true)] (by decide)⟩

/-- Claim C3, counterexample: a drop-inactive publish (`ARGV[5] = "1"`)
that reached zero subscribers while the touch key does not exist does NOT
always leave the history list untouched: when the list already exists
(here `["a"]`), `lpushx` appends the payload and the list becomes
`["b","a"]`. -/
theorem c3_untouched_counterexample :
    (pubScript "c" "b" 3 60 true 0 false ["a"] none).history = ["b", "a"] ∧
    (pubScript "c" "b" 3 60 true 0 false ["a"] none).history ≠ ["a"] ∧
    (pubScript "c" "b" 3 60 true 0 false ["a"] none).channel = "c" ∧
    (pubScript "c" "b" 3 60 true 0 false ["a"] none).payload = "b" := by
  decide

/-- Claim C3, amended: for a publish with drop-inactive enabled that
reaches zero subscribers while the touch key does not exist, the append is
the `lpushx` variant: when the history list does not exist (is empty) the
list and its TTL are untouched; when it exists the payload is prepended and
the list trimmed (`lrange0 n (p :: hist)`) with a fresh TTL.  In both cases
the message is still published to pub/sub on the requested channel. -/
theorem c3_drop_inactive_lpushx (c p : String) (n l : Int)
    (hist : List String) (ttl : Option Int) :
    (pubScript c p n l true 0 false hist ttl).channel = c ∧
    (pubScript c p n l true 0 false hist ttl).payload = p ∧
    (hist = [] →
      (pubScript c p n l true 0 false hist ttl).history = [] ∧
      (pubScript c p n l true 0 false hist ttl).histTtl = ttl) ∧
    (hist ≠ [] →
      (pubScript c p n l true 0 false hist ttl).history =
        lrange0 n (p :: hist) ∧
      (pubScript c p n l true 0 false hist ttl).histTtl = some l) := by
  cases hist with
  | nil => simp [pubScript, lpushx]
  | cons a t => simp [pubScript, lpushx, lpush]

/-- Witness for `c3_drop_inactive_lpushx`: absent list stays absent, the
existing list `["a"]` gets `"p"` prepended. -/
theorem c3_drop_inactive_lpushx_witness :
    ((pubScript "c" "p" 3 60 true 0 false [] none).history = [] ∧
     (pubScript "c" "p" 3 60 true 0 false [] none).histTtl = none) ∧
    ((pubScript "c" "p" 3 60 true 0 false ["a"] none).history =
       lrange0 3 ("p" :: ["a"]) ∧
     (pubScript "c" "p" 3 60 true 0 false ["a"] none).histTtl = some 60) :=
  ⟨(c3_drop_inactive_lpushx "c" "p" 3 60 [] none).2.2.1 rfl,
   (c3_drop_inactive_lpushx "c" "p" 3 60 ["a"] none).2.2.2 (by decide)⟩

/-- Claim C5: `History(c, {limit: 0})` requests `LRANGE 0 -1` and returns
the full list; `History(c, {limit: k})` with `k > 0` requests
`LRANGE 0 (k-1)` and returns the first `k` entries (at most `k`, newest
first, the list being stored newest-first). -/
theorem c5_history_limit (hist : List String) (k : Int) :
    historyRangeBound 0 = -1 ∧
    shardHistory hist 0 = hist ∧
    (0 < k →
      historyRangeBound k = k - 1 ∧
      shardHistory hist k = hist.take k.toNat ∧
      (shardHistory hist k).length ≤ k.toNat) := by
  refine ⟨rfl, ?_, ?_⟩
  · simp [shardHistory, historyRangeBound, lrange0_neg_one]
  · intro hk
    have h1 : historyRangeBound k = k - 1 := if_pos hk
    have h2 : shardHistory hist k = hist.take k.toNat := by
      rw [shardHistory, h1]
      unfold lrange0
      rw [if_neg (by omega)]
      congr 1
      omega
    exact ⟨h1, h2, by rw [h2]; exact List.length_take_le _ _⟩

/-- Witness for `c5_history_limit` at `limit = 1` on list `["b","a"]`. -/
theorem c5_history_limit_witness :
    (0 : Int) < 1 ∧
    (historyRangeBound 1 = 1 - 1 ∧
     shardHistory ["b", "a"] 1 = ["b", "a"].take (1 : Int).toNat ∧
     (shardHistory ["b", "a"] 1).length ≤ (1 : Int).toNat) :=
  ⟨by decide, (c5_history_limit ["b", "a"] 1).2.2 (by decide)⟩

/-! ## Association-list lemmas for the presence model -/

lemma lookup_eq_none_of_forall {β : Type} (u : String)
    (l : List (String × β)) (h : ∀ q ∈ l, q.1 ≠ u) : l.lookup u = none := by
  induction l with
  | nil => rfl
  | cons q t ih =>
    obtain ⟨a, b⟩ := q
    have ha : a ≠ u := h (a, b) (List.mem_cons_self _ _)
    have hb : (u == a) = false := beq_eq_false_iff_ne.mpr (Ne.symm ha)
    simp only [List.lookup, hb]
    exact ih fun q hq => h q (List.mem_cons_of_mem _ hq)

lemma lookup_append_of_forall {β : Type} (u : String)
    (l m : List (String × β)) (h : ∀ q ∈ l, q.1 ≠ u) :
    (l ++ m).lookup u = m.lookup u := by
  induction l with
  | nil => rfl
  | cons q t ih =>
    obtain ⟨a, b⟩ := q
    have ha : a ≠ u := h (a, b) (List.mem_cons_self _ _)
    have hb : (u == a) = false := beq_eq_false_iff_ne.mpr (Ne.symm ha)
    simp only [List.cons_append, List.lookup, hb]
    exact ih fun q hq => h q (List.mem_cons_of_mem _ hq)

lemma lookup_map_replace {β : Type} (k : String) (v : β)
    (l : List (String × β)) (h : l.any (fun p => p.1 = k)) :
    (l.map (fun p => if p.1 = k then (k, v) else p)).lookup k = some v := by
  induction l with
  | nil => simp at h
  | cons q t ih =>
    obtain ⟨a, b⟩ := q
    by_cases hk : a = k
    · subst hk
      rw [List.map_cons]
      rw [if_pos (show ((a, b) : String × β).1 = a from rfl)]
      simp [List.lookup]
    · have h' : t.any (fun p => p.1 = k) := by
        simp only [List.any_cons] at h
        rcases Bool.or_eq_true_iff.mp h with h1 | h2
        · exact absurd (of_decide_eq_true h1) hk
        · exact h2
      have hb : (k == a) = false := beq_eq_false_iff_ne.mpr (Ne.symm hk)
      simp only [List.map_cons]
      rw [if_neg hk]
      simp only [List.lookup, hb]
      exact ih h'

lemma upsert_lookup {β : Type} (k : String) (v : β)
    (l : List (String × β)) : (upsert k v l).lookup k = some v := by
  unfold upsert
  split
  · next h => exact lookup_map_replace k v l h
  · next h =>
    rw [lookup_append_of_forall]
    · simp [List.lookup]
    · intro q hq hqk
      exact h (List.any_eq_true.mpr ⟨q, hq, by simp [hqk]⟩)

lemma mem_upsert {β : Type} (k : String) (v : β) (l : List (String × β))
    (p : String × β) (hp : p ∈ upsert k v l) :
    p = (k, v) ∨ (p ∈ l ∧ p.1 ≠ k) := by
  unfold upsert at hp
  split at hp
  · next h =>
    obtain ⟨q, hq, hqe⟩ := List.mem_map.mp hp
    by_cases hk : q.1 = k
    · left; rw [← hqe, if_pos hk]
    · right
      rw [← hqe, if_neg hk]
      exact ⟨hq, hk⟩
  · next h =>
    rcases List.mem_append.mp hp with h1 | h2
    · right
      refine ⟨h1, fun hk => ?_⟩
      exact h (List.any_eq_true.mpr ⟨p, h1, by simp [hk]⟩)
    · left; simpa using h2

lemma upsert_keys_nodup {β : Type} (k : String) (v : β)
    (l : List (String × β)) (h : (l.map Prod.fst).Nodup) :
    ((upsert k v l).map Prod.fst).Nodup := by
  unfold upsert
  split
  · next _ =>
    have he : (l.map (fun p => if p.1 = k then (k, v) else p)).map Prod.fst
        = l.map Prod.fst := by
      rw [List.map_map]
      apply List.map_congr_left
      intro p _
      by_cases hk : p.1 = k <;> simp [hk]
    rw [he]; exact h
  · next hf =>
    rw [List.map_append, List.map_singleton]
    rw [List.nodup_append]
    refine ⟨h, List.nodup_singleton _, ?_⟩
    intro a ha hb
    have hak : a = k := by simpa using hb
    obtain ⟨q, hq, hqa⟩ := List.mem_map.mp ha
    exact hf (List.any_eq_true.mpr ⟨q, hq, by simp [hqa, hak]⟩)

lemma eq_of_mem_of_nodup_keys {β : Type} (l : List (String × β))
    (h : (l.map Prod.fst).Nodup) (u : String) (s s' : β)
    (h1 : (u, s) ∈ l) (h2 : (u, s') ∈ l) : s = s' := by
  induction l with
  | nil => simp at h1
  | cons q t ih =>
    obtain ⟨a, b⟩ := q
    rw [List.map_cons, List.nodup_cons] at h
    rcases List.mem_cons.mp h1 with he1 | ht1
    · rcases List.mem_cons.mp h2 with he2 | ht2
      · rw [Prod.mk.injEq] at he1 he2
        rw [he1.2, he2.2]
      · exfalso
        apply h.1
        rw [Prod.mk.injEq] at he1
        exact List.mem_map.mpr ⟨(u, s'), ht2, he1.1⟩
    · rcases List.mem_cons.mp h2 with he2 | ht2
      · exfalso
        apply h.1
        rw [Prod.mk.injEq] at he2
        exact List.mem_map.mpr ⟨(u, s), ht1, he2.1⟩
      · exact ih h.2 ht1 ht2

lemma lookup_filter_of_keeps {β : Type} (u : String)
    (f : String × β → Bool) (l : List (String × β))
    (h : ∀ q ∈ l, q.1 = u → f q = true) :
    (l.filter f).lookup u = l.lookup u := by
  induction l with
  | nil => rfl
  | cons q t ih =>
    obtain ⟨a, b⟩ := q
    have ih' := ih fun q hq => h q (List.mem_cons_of_mem _ hq)
    by_cases ha : a = u
    · have hf : f (a, b) = true := h (a, b) (List.mem_cons_self _ _) ha
      rw [List.filter_cons_of_pos hf]
      have hb : (u == a) = true := beq_iff_eq.mpr ha.symm
      simp only [List.lookup, hb]
    · have hb : (u == a) = false := beq_eq_false_iff_ne.mpr (Ne.symm ha)
      cases hf : f (a, b) with
      | true =>
        rw [List.filter_cons_of_pos hf]
        simp only [List.lookup, hb]
        exact ih'
      | false =>
        rw [List.filter_cons_of_neg (by simp [hf])]
        simp only [List.lookup, hb]
        exact ih'

lemma presenceScript_of_empty (now : Int) (st : PresenceState)
    (h : st.pset.filter (fun p => decide (0 ≤ p.2 ∧ p.2 ≤ now)) = []) :
    presenceScript now st = (st, st.phash) := by
  unfold presenceScript
  rw [h]
  rfl

lemma presenceScript_of_ne (now : Int) (st : PresenceState)
    (h : st.pset.filter (fun p => decide (0 ≤ p.2 ∧ p.2 ≤ now)) ≠ []) :
    presenceScript now st =
      ({ pset := st.pset.filter (fun p => ! decide (0 ≤ p.2 ∧ p.2 ≤ now)),
         phash := st.phash.filter (fun q =>
           ! (st.pset.filter (fun p => decide (0 ≤ p.2 ∧ p.2 ≤ now))).any
             (fun p => p.1 == q.1)) },
       st.phash.filter (fun q =>
         ! (st.pset.filter (fun p => decide (0 ≤ p.2 ∧ p.2 ≤ now))).any
           (fun p => p.1 == q.1))) := by
  unfold presenceScript
  rw [if_neg (by simpa [List.isEmpty_iff] using h)]

/-- Claim C4: `AddPresence(c, uid, info, e)` followed immediately (same
`now`) by `Presence(c)` yields an entry `uid ↦ info` iff `e > 0` (for
`e ≤ 0` the script's `EXPIRE key e` deletes both presence keys outright),
and the presence read sweeps every uid whose expiry score is `≤ now` out of
both the sorted set and the hash before the hash is returned.  The
hypotheses are store invariants: `now` is a Unix timestamp, sorted-set
scores are non-negative (scores are written as `now + e` and non-positive
TTLs delete the key) and sorted-set members are unique. -/
theorem c4_presence_roundtrip (st : PresenceState) (now e : Int)
    (uid info : String) (hnow : 0 ≤ now)
    (hscores : ∀ p ∈ st.pset, 0 ≤ p.2)
    (hkeys : (st.pset.map Prod.fst).Nodup) :
    ((shardPresence now (shardAddPresence now e uid info st)).2.lookup uid
        = some info ↔ 0 < e) ∧
    (∀ u s, (u, s) ∈ (shardAddPresence now e uid info st).pset → s ≤ now →
      (∀ s', (u, s') ∉
        (shardPresence now (shardAddPresence now e uid info st)).1.pset) ∧
      (shardPresence now
        (shardAddPresence now e uid info st)).1.phash.lookup u = none) := by
  by_cases he : e ≤ 0
  · have hst1 : shardAddPresence now e uid info st = ⟨[], []⟩ := by
      unfold shardAddPresence addPresenceScript
      rw [if_pos he]
    rw [hst1]
    have hps : shardPresence now (⟨[], []⟩ : PresenceState)
        = (⟨[], []⟩, []) := by
      unfold shardPresence
      exact presenceScript_of_empty now ⟨[], []⟩ rfl
    rw [hps]
    constructor
    · simp only [List.lookup]
      constructor
      · intro hc; exact absurd hc (by simp)
      · intro hc; omega
    · intro u s hmem
      exact absurd hmem (by simp)
  · push_neg at he
    have hst1 : shardAddPresence now e uid info st =
        ⟨upsert uid (now + e) st.pset, upsert uid info st.phash⟩ := by
      unfold shardAddPresence addPresenceScript
      rw [if_neg (by omega)]
    rw [hst1]
    have fact1 : ∀ p ∈ upsert uid (now + e) st.pset, p.1 = uid →
        p.2 = now + e := by
      intro p hp hpk
      rcases mem_upsert _ _ _ _ hp with h1 | h2
      · rw [h1]
      · exact absurd hpk h2.2
    have fact2 : ∀ p ∈ upsert uid (now + e) st.pset, 0 ≤ p.2 := by
      intro p hp
      rcases mem_upsert _ _ _ _ hp with h1 | h2
      · rw [h1]; dsimp only; omega
      · exact hscores p h2.1
    have fact3 : ((upsert uid (now + e) st.pset).map Prod.fst).Nodup :=
      upsert_keys_nodup _ _ _ hkeys
    have fact4 : ∀ p ∈ (upsert uid (now + e) st.pset).filter
        (fun p => decide (0 ≤ p.2 ∧ p.2 ≤ now)), p.1 ≠ uid := by
      intro p hp hpk
      have hm := List.mem_filter.mp hp
      have hrange := of_decide_eq_true hm.2
      have heq := fact1 p hm.1 hpk
      omega
    constructor
    · -- the round-trip iff
      have hlk : (shardPresence now
          (⟨upsert uid (now + e) st.pset, upsert uid info st.phash⟩ :
            PresenceState)).2.lookup uid = some info := by
        unfold shardPresence
        by_cases hemp : (upsert uid (now + e) st.pset).filter
            (fun p => decide (0 ≤ p.2 ∧ p.2 ≤ now)) = []
        · rw [presenceScript_of_empty now _ hemp]
          exact upsert_lookup _ _ _
        · rw [presenceScript_of_ne now _ hemp]
          dsimp only
          rw [lookup_filter_of_keeps]
          · exact upsert_lookup _ _ _
          · intro q _ hq1
            rw [Bool.not_eq_true', List.any_eq_false]
            intro p hp
            simp only [beq_iff_eq, hq1]
            exact fact4 p hp
      exact iff_of_true hlk he
    · -- the sweep
      intro u s hmem hle
      have h0s : 0 ≤ s := fact2 (u, s) hmem
      have hmemex : (u, s) ∈ (upsert uid (now + e) st.pset).filter
          (fun p => decide (0 ≤ p.2 ∧ p.2 ≤ now)) :=
        List.mem_filter.mpr ⟨hmem, decide_eq_true ⟨h0s, hle⟩⟩
      have hne := List.ne_nil_of_mem hmemex
      unfold shardPresence
      rw [presenceScript_of_ne now _ hne]
      dsimp only
      constructor
      · intro s' hmem'
        have hf := List.mem_filter.mp hmem'
        have hss : s' = s :=
          eq_of_mem_of_nodup_keys _ fact3 u s' s hf.1 hmem
        have hr := hf.2
        rw [Bool.not_eq_true', decide_eq_false_iff_not] at hr
        exact hr (by constructor <;> omega)
      · apply lookup_eq_none_of_forall
        intro q hq hqu
        have hf := List.mem_filter.mp hq
        have hr := hf.2
        rw [Bool.not_eq_true', List.any_eq_false] at hr
        have hcon := hr (u, s) hmemex
        exact hcon (by simp [beq_iff_eq, hqu])

/-- Witness for `c4_presence_roundtrip`: state with one live member `"v"`
(score 5), `AddPresence("u", "i", 3)` at `now = 10` then `Presence`:
`"u"` is reported, `"v"` (expired at 5 ≤ 10) is swept from set and hash. -/
theorem c4_presence_roundtrip_witness :
    ((0 : Int) ≤ 10 ∧ (∀ p ∈ [(("v" : String), (5 : Int))], 0 ≤ p.2) ∧
      ([(("v" : String), (5 : Int))].map Prod.fst).Nodup) ∧
    ((shardPresence 10 (shardAddPresence 10 3 "u" "i"
        ⟨[("v", 5)], [("v", "iv")]⟩)).2.lookup "u" = some "i" ↔ (0 : Int) < 3) ∧
    (∀ u s, (u, s) ∈ (shardAddPresence 10 3 "u" "i"
        ⟨[("v", 5)], [("v", "iv")]⟩).pset → s ≤ 10 →
      (∀ s', (u, s') ∉ (shardPresence 10 (shardAddPresence 10 3 "u" "i"
        ⟨[("v", 5)], [("v", "iv")]⟩)).1.pset) ∧
      (shardPresence 10 (shardAddPresence 10 3 "u" "i"
        ⟨[("v", 5)], [("v", "iv")]⟩)).1.phash.lookup u = none) :=
  ⟨⟨by decide, by decide, by decide⟩,
   c4_presence_roundtrip ⟨[("v", 5)], [("v", "iv")]⟩ 10 3 "u" "i"
     (by decide) (by decide) (by decide)⟩

/-- Claim C2, counterexample: `Shard.Subscribe` pushes no data request at
all — in particular no `SETEX` on the history-touch key — so after a
`Subscribe("c")` on a fresh store the touch key for `"c"` is still absent
and a publish observed after the subscribe does NOT find it present. -/
theorem c2_subscribe_touch_counterexample :
    (shardSubscribe "p" "c").dataReqs = [] ∧
    (applyDataRequests [] (shardSubscribe "p" "c").dataReqs).lookup
      (getHistoryTouchKey "p" "c") = none := by
  decide

/-- Claim C2, amended: the history-touch key is refreshed by each local
`Unsubscribe` (not `Subscribe`) on a channel whose options set
`HistoryDropInactive`: the unsubscribe issues exactly one
`dataOpHistoryTouch` request — executed as
`SETEX touchKey historyLifetime ""` — and waits for it, so the touch key is
present (with TTL `HistoryLifetime`) afterwards; `Subscribe` issues no data
request. -/
theorem c2_unsubscribe_touch (confPre ch : String) (o : ChannelOptions)
    (st : List (String × Int × String))
    (hdi : o.HistoryDropInactive = true) :
    (shardSubscribe confPre ch).dataReqs = [] ∧
    (shardUnsubscribe confPre ch (some o)).dataReqs =
      [newDataRequest .historyTouch
        [.str (getHistoryTouchKey confPre ch), .int o.HistoryLifetime,
         .str ""] true] ∧
    (applyDataRequests st
      (shardUnsubscribe confPre ch (some o)).dataReqs).lookup
        (getHistoryTouchKey confPre ch) = some (o.HistoryLifetime, "") := by
  refine ⟨rfl, ?_, ?_⟩
  · simp [shardUnsubscribe, hdi]
  · simp only [shardUnsubscribe, hdi, if_pos, applyDataRequests,
      List.foldl_cons, List.foldl_nil, applyDataRequest, newDataRequest,
      setex]
    exact upsert_lookup _ _ _

/-- Witness for `c2_unsubscribe_touch` with options
`⟨3, 60, true⟩` on an empty touch-key store. -/
theorem c2_unsubscribe_touch_witness :
    (⟨3, 60, true⟩ : ChannelOptions).HistoryDropInactive = true ∧
    ((shardSubscribe "p" "c").dataReqs = [] ∧
     (shardUnsubscribe "p" "c" (some ⟨3, 60, true⟩)).dataReqs =
       [newDataRequest .historyTouch
         [.str (getHistoryTouchKey "p" "c"),
          .int (⟨3, 60, true⟩ : ChannelOptions).HistoryLifetime, .str ""]
         true] ∧
     (applyDataRequests []
       (shardUnsubscribe "p" "c" (some ⟨3, 60, true⟩)).dataReqs).lookup
         (getHistoryTouchKey "p" "c") =
       some ((⟨3, 60, true⟩ : ChannelOptions).HistoryLifetime, "")) :=
  ⟨rfl, c2_unsubscribe_touch "p" "c" ⟨3, 60, true⟩ [] rfl⟩

/-- Claim C6: when the single `Flush` after a publish batch fails, every
request in the batch receives exactly that flush error on its reply
channel (positionally: `replies = prs.map (fun _ => some e)`) and the
pipeline loop exits, to be restarted by the supervisor. -/
theorem c6_flush_error_batch (prs : List PubRequestM)
    (recvs : List (Option String)) (e : String) :
    (processPublishBatch prs (some e) recvs).replies
      = prs.map (fun _ => some e) ∧
    (processPublishBatch prs (some e) recvs).exits = true :=
  ⟨rfl, rfl⟩

/-- Claim C7: a payload-encoding failure in `Publish`, `PublishJoin`,
`PublishLeave` or `PublishControl` puts the encode error on the returned
reply channel and enqueues nothing into the publish pipeline channel
(`pubCh` is returned unchanged), for a failure of either encode step. -/
theorem c7_encode_error_no_enqueue (confPre ch e d : String)
    (enc2 : String → Except String String) (opts : Option ChannelOptions)
    (pubCh : List PubRequestM) :
    shardPublish confPre ch (.error e) enc2 opts pubCh = ([e], pubCh) ∧
    (enc2 d = .error e →
      shardPublish confPre ch (.ok d) enc2 opts pubCh = ([e], pubCh)) ∧
    shardPublishJoin confPre ch (.error e) enc2 pubCh = ([e], pubCh) ∧
    (enc2 d = .error e →
      shardPublishJoin confPre ch (.ok d) enc2 pubCh = ([e], pubCh)) ∧
    shardPublishLeave confPre ch (.error e) enc2 pubCh = ([e], pubCh) ∧
    (enc2 d = .error e →
      shardPublishLeave confPre ch (.ok d) enc2 pubCh = ([e], pubCh)) ∧
    shardPublishControl confPre (.error e) pubCh = ([e], pubCh) := by
  refine ⟨rfl, ?_, rfl, ?_, rfl, ?_, rfl⟩ <;>
    (intro h;
     simp only [shardPublish, shardPublishJoin, shardPublishLeave, h])

/-- Witness for `c7_encode_error_no_enqueue`: the second encode step fails
with `"E"`. -/
theorem c7_encode_error_no_enqueue_witness :
    shardPublish "p" "c" (.ok "d") (fun _ => .error "E") none []
      = (["E"], []) ∧
    shardPublishJoin "p" "c" (.ok "d") (fun _ => .error "E") []
      = (["E"], []) ∧
    shardPublishLeave "p" "c" (.ok "d") (fun _ => .error "E") []
      = (["E"], []) :=
  ⟨(c7_encode_error_no_enqueue "p" "c" "E" "d" (fun _ => .error "E")
      none []).2.1 rfl,
   (c7_encode_error_no_enqueue "p" "c" "E" "d" (fun _ => .error "E")
      none []).2.2.2.1 rfl,
   (c7_encode_error_no_enqueue "p" "c" "E" "d" (fun _ => .error "E")
      none []).2.2.2.2.2.1 rfl⟩

/-- Claim C8: a `subRequest` or `dataRequest` created with
`wantResponse = false` has a nil reply channel: `done` discards the
error/reply, leaving the request unchanged (nothing stored, no blocking
send), and `result` returns immediately (`some _`, never the blocking
`none`) with a nil error resp. the empty `dataResponse`. -/
theorem c8_fire_and_forget (chs : List String) (sub : Bool)
    (e : Option String) (op : DataOpM) (args : List RArg)
    (reply err : Option String) :
    subRequestDone (newSubRequest chs sub false) e
      = newSubRequest chs sub false ∧
    subRequestResult (newSubRequest chs sub false) = some none ∧
    dataRequestDone (newDataRequest op args false) reply err
      = newDataRequest op args false ∧
    dataRequestResult (newDataRequest op args false)
      = some { reply := none, err := none } :=
  ⟨rfl, rfl, rfl, rfl⟩

/-- Claim C10: a pub/sub message with empty payload is skipped by the
worker lane before the channel switch: for every channel name — control,
ping or client — it invokes neither the control handler nor the
client-message handler and produces no (logged) error. -/
theorem c10_empty_payload_skipped (controlCh pingCh msgCh : String)
    (decodeCommand handleClientMessage : List Nat → Except String Nat) :
    workerProcess controlCh pingCh decodeCommand handleClientMessage
      msgCh [] = .skippedEmpty ∧
    invokesHandler (workerProcess controlCh pingCh decodeCommand
      handleClientMessage msgCh []) = false ∧
    workerErrored (workerProcess controlCh pingCh decodeCommand
      handleClientMessage msgCh []) = false :=
  ⟨rfl, rfl, rfl⟩

lemma mem_foldl_insertDistinct (l : List (List Char))
    (acc : List (List Char)) (c : List Char) :
    c ∈ l.foldl insertDistinct acc ↔ c ∈ acc ∨ c ∈ l := by
  induction l generalizing acc with
  | nil => simp
  | cons x t ih =>
    rw [List.foldl_cons, ih]
    unfold insertDistinct
    by_cases hx : x ∈ acc
    · rw [if_pos hx]
      simp only [List.mem_cons]
      constructor
      · rintro (h1 | h2)
        · exact Or.inl h1
        · exact Or.inr (Or.inr h2)
      · rintro (h1 | rfl | h3)
        · exact Or.inl h1
        · exact Or.inl hx
        · exact Or.inr h3
    · rw [if_neg hx]
      simp only [List.mem_append, List.mem_cons, List.not_mem_nil,
        or_false]
      constructor
      · rintro ((h1 | rfl) | h2)
        · exact Or.inl h1
        · exact Or.inr (Or.inl rfl)
        · exact Or.inr (Or.inr h2)
      · rintro (h1 | rfl | h3)
        · exact Or.inl (Or.inl h1)
        · exact Or.inl (Or.inr rfl)
        · exact Or.inr h3

lemma nodup_foldl_insertDistinct (l : List (List Char))
    (acc : List (List Char)) (h : acc.Nodup) :
    (l.foldl insertDistinct acc).Nodup := by
  induction l generalizing acc with
  | nil => simpa
  | cons x t ih =>
    rw [List.foldl_cons]
    apply ih
    unfold insertDistinct
    by_cases hx : x ∈ acc
    · rw [if_pos hx]; exact h
    · rw [if_neg hx]
      rw [List.nodup_append]
      refine ⟨h, List.nodup_singleton _, ?_⟩
      intro a ha hb
      rw [List.mem_singleton] at hb
      exact hx (hb ▸ ha)

lemma shardChannels_nodup (confPre : List Char) (store : List (List Char))
    (hnd : store.Nodup)
    (hpre : ∀ s ∈ store,
      s.take (messagePreL confPre).length = messagePreL confPre) :
    (shardChannels confPre store).Nodup := by
  unfold shardChannels
  refine List.Nodup.map_on ?_ hnd
  intro x hx y hy hxy
  calc x = x.take (messagePreL confPre).length
            ++ x.drop (messagePreL confPre).length :=
        (List.take_append_drop _ _).symm
    _ = messagePreL confPre ++ x.drop (messagePreL confPre).length := by
        rw [hpre x hx]
    _ = messagePreL confPre ++ y.drop (messagePreL confPre).length := by
        rw [hxy]
    _ = y.take (messagePreL confPre).length
          ++ y.drop (messagePreL confPre).length := by rw [hpre y hy]
    _ = y := List.take_append_drop _ _

/-- Claim C9: `RedisEngine.Channels` returns the duplicate-free union of
every shard's channel list, each shard having stripped its
`messagePrefix` (configured prefix + `".client."`) from every store-level
name; with a single shard (sharding disabled) it returns the first shard's
list directly, which is that union.  Hypotheses are the store guarantee:
`PUBSUB CHANNELS messagePrefix*` returns distinct names, each starting with
`messagePrefix`. -/
theorem c9_channels_union (shards : List (List Char × List (List Char)))
    (hstore : ∀ sh ∈ shards, sh.2.Nodup ∧
      ∀ s ∈ sh.2, s.take (messagePreL sh.1).length = messagePreL sh.1) :
    (∀ c, c ∈ engineChannelsOf shards ↔
      ∃ sh ∈ shards, c ∈ shardChannels sh.1 sh.2) ∧
    (engineChannelsOf shards).Nodup ∧
    (∀ p store, shards = [(p, store)] →
      engineChannelsOf shards = shardChannels p store) := by
  rcases shards with _ | ⟨sh1, _ | ⟨sh2, rest⟩⟩
  · refine ⟨?_, ?_, ?_⟩
    · intro c
      simp [engineChannelsOf, engineChannels]
    · simp [engineChannelsOf, engineChannels]
    · intro p store h
      simp at h
  · refine ⟨?_, ?_, ?_⟩
    · intro c
      simp [engineChannelsOf, engineChannels]
    · have h1 := hstore sh1 (List.mem_singleton_self _)
      show (engineChannels [shardChannels sh1.1 sh1.2]).Nodup
      exact shardChannels_nodup sh1.1 sh1.2 h1.1 h1.2
    · intro p store h
      rw [List.cons.injEq] at h
      rw [h.1]
      rfl
  · refine ⟨?_, ?_, ?_⟩
    · intro c
      have he : engineChannelsOf (sh1 :: sh2 :: rest) =
          ((sh1 :: sh2 :: rest).map
            (fun sh => shardChannels sh.1 sh.2)).flatten.foldl
            insertDistinct [] := rfl
      rw [he, mem_foldl_insertDistinct]
      simp only [List.mem_nil_iff, false_or, List.mem_flatten,
        List.mem_map]
      constructor
      · rintro ⟨l, ⟨sh, hsh, rfl⟩, hc⟩
        exact ⟨sh, hsh, hc⟩
      · rintro ⟨sh, hsh, hc⟩
        exact ⟨shardChannels sh.1 sh.2, ⟨sh, hsh, rfl⟩, hc⟩
    · exact nodup_foldl_insertDistinct _ [] List.nodup_nil
    · intro p store h
      simp at h

/-- Witness for `c9_channels_union`: one shard with prefix `"p"` holding
the single store channel `"p.client.a"`. -/
theorem c9_channels_union_witness :
    (∀ sh ∈ [("p".toList, [messagePreL "p".toList ++ "a".toList])],
      sh.2.Nodup ∧
      ∀ s ∈ sh.2,
        s.take (messagePreL sh.1).length = messagePreL sh.1) ∧
    ((∀ c, c ∈ engineChannelsOf
        [("p".toList, [messagePreL "p".toList ++ "a".toList])] ↔
      ∃ sh ∈ [("p".toList, [messagePreL "p".toList ++ "a".toList])],
        c ∈ shardChannels sh.1 sh.2) ∧
     (engineChannelsOf
        [("p".toList, [messagePreL "p".toList ++ "a".toList])]).Nodup ∧
     (∀ p store,
        [("p".toList, [messagePreL "p".toList ++ "a".toList])]
          = [(p, store)] →
        engineChannelsOf
          [("p".toList, [messagePreL "p".toList ++ "a".toList])]
          = shardChannels p store)) :=
  ⟨by decide,
   c9_channels_union [("p".toList, [messagePreL "p".toList ++ "a".toList])]
     (by decide)⟩

end EngineRedis
